import Mathlib

/-!
Verification of the filter-and-aggregate pipeline of the employee-performance
dashboard (`src/app.py`).

The program is a pandas pipeline: `load_data` reads a CSV, strips whitespace
on the `department` and `gender` columns and coerces four columns to numeric;
the caller validates required columns, filters the table by gender set,
inclusive performance-score range and marital-status set, and computes
aggregates (means, grouped means, value counts) over the filtered view.

We embed tables shallowly: a cell is a `Value` (string, rational number, or
the missing marker `na`, playing the role of pandas `NaN`), a row is an
association list from column name to `Value`, and a data frame carries its
column list together with its rows.  Machine floats are idealised as `ℚ`;
the missing marker is explicit rather than a float `NaN`.
-/

/-- A cell value: a string, a number (idealising pandas floats as `ℚ`),
or the missing marker (pandas `NaN`). -/
inductive Value where
  | str (s : String)
  | num (q : ℚ)
  | na
deriving DecidableEq, Repr

/-- A row: association list from column name to cell value. -/
abbrev Row := List (String × Value)

/-- Cell lookup; a key absent from the row reads as missing. -/
def Row.get (r : Row) (c : String) : Value :=
  match r.find? (fun p => p.1 == c) with
  | some p => p.2
  | none => Value.na

/-- Column assignment (`df[c] = v` at row level): replaces the first binding
of `c`, appending if absent. -/
def Row.set : Row → String → Value → Row
  | [], c, v => [(c, v)]
  | (c', v') :: r, c, v =>
      if c' = c then (c, v) :: r else (c', v') :: Row.set r c v

/-- A data frame: column list plus rows. -/
structure DF where
  cols : List String
  rows : List Row
deriving DecidableEq, Repr

/-- Characters stripped by Python's `str.strip()` (whitespace). -/
def isWS (c : Char) : Bool :=
  c = ' ' || c = '\t' || c = '\n' || c = '\r'

/-- `str.strip()` on a character list: drop whitespace at both ends. -/
def stripChars (l : List Char) : List Char :=
  ((l.dropWhile isWS).reverse.dropWhile isWS).reverse

/-- Python `str.strip()` / pandas `.str.strip()`. -/
def pyStrip (s : String) : String :=
  String.mk (stripChars s.data)

/-- Pandas `.astype(str)` at cell level: strings unchanged, the missing
marker becomes the literal string `"nan"` (Python `str(float("nan"))`),
numbers become their decimal text (exact float formatting is immaterial to
every property below). -/
def astypeStr (v : Value) : String :=
  match v with
  | .str s => s
  | .num q => toString q
  | .na => "nan"

/-- Numeric value of a decimal digit. -/
def digitVal (c : Char) : Option ℕ :=
  if c.isDigit then some (c.toNat - 48) else none

/-- Parse a non-empty all-digit character list as a natural number. -/
def parseNat? (l : List Char) : Option ℕ :=
  if l = [] then none
  else l.foldl (fun acc c =>
    match acc, digitVal c with
    | some a, some d => some (a * 10 + d)
    | _, _ => none) (some 0)

/-- Parse a decimal literal (optional sign, digits, optional fractional
part) after stripping surrounding whitespace; `none` if unparseable.
Models the accepting core of `pd.to_numeric` on a string cell. -/
def parseNum (s : String) : Option ℚ :=
  let l := stripChars s.data
  let neg : Bool := l.head? = some '-'
  let l' := match l with
    | '-' :: t => t
    | '+' :: t => t
    | _ => l
  let ip := l'.takeWhile (fun c => c ≠ '.')
  let rest := l'.dropWhile (fun c => c ≠ '.')
  let signed : ℚ → ℚ := fun q => if neg then -q else q
  match rest with
  | [] => (parseNat? ip).map (fun n => signed n)
  | _ :: fp =>
      if fp.any (fun c => c = '.') then none
      else if ip = [] ∧ fp = [] then none
      else
        let ipv := if ip = [] then some 0 else parseNat? ip
        let fpv := if fp = [] then some 0 else parseNat? fp
        match ipv, fpv with
        | some a, some b => some (signed ((a : ℚ) + (b : ℚ) / (10 : ℚ) ^ fp.length))
        | _, _ => none

/-- `pd.to_numeric(·, errors="coerce")` at cell level: numbers pass
through, missing stays missing, a string becomes its parsed number or the
missing marker.  Total: no cell can raise. -/
def toNumeric (v : Value) : Value :=
  match v with
  | .num q => .num q
  | .na => .na
  | .str s =>
      match parseNum s with
      | some q => .num q
      | none => .na

/-- The columns `load_data` itself reads, in program order
(lines 47-52 of `app.py`). -/
def loaderCols : List String :=
  ["department", "gender", "performance_score", "salary", "average_work_hours", "age"]

/-- The columns coerced to numeric by the loader. -/
def numericCols : List String :=
  ["performance_score", "salary", "average_work_hours", "age"]

/-- Per-row body of `load_data`: trim `department` and `gender` after the
string cast, then coerce the four numeric columns. -/
def loadRow (r : Row) : Row :=
  let r1 := r.set "department" (.str (pyStrip (astypeStr (r.get "department"))))
  let r2 := r1.set "gender" (.str (pyStrip (astypeStr (r1.get "gender"))))
  numericCols.foldl (fun acc c => acc.set c (toNumeric (acc.get c))) r2

/-- `load_data`: accessing an absent column raises `KeyError` (modelled as
`Except.error` naming the first absent column in program order); otherwise
every row is cleaned and the column list is unchanged. -/
def load (df0 : DF) : Except String DF :=
  match loaderCols.find? (fun c => ! df0.cols.contains c) with
  | some c => .error c
  | none => .ok { cols := df0.cols, rows := df0.rows.map loadRow }

/-- The required columns validated after load (line 59 of `app.py`). -/
def requiredCols : List String :=
  ["gender", "performance_score", "marital_status", "average_work_hours", "age", "salary"]

/-- `[c for c in required_cols if c not in df.columns]`. -/
def missingCols (df : DF) : List String :=
  requiredCols.filter (fun c => ! df.cols.contains c)

/-- Lexicographic order on character lists by code point — how Python
`sorted` compares two strings. -/
def charListLe : List Char → List Char → Bool
  | [], _ => true
  | _ :: _, [] => false
  | a :: as, b :: bs =>
      if a.toNat < b.toNat then true
      else if b.toNat < a.toNat then false
      else charListLe as bs

/-- Total order on cell values used for sorting (strings by code-point
order, numbers by numeric order; in the program every sorted list is
homogeneous). -/
def Value.leb (a b : Value) : Bool :=
  match a, b with
  | .na, _ => true
  | .num _, .na => false
  | .num x, .num y => decide (x ≤ y)
  | .num _, .str _ => true
  | .str _, .na => false
  | .str _, .num _ => false
  | .str x, .str y => charListLe x.data y.data

/-- `Value.leb` as a sorting relation. -/
def vle (a b : Value) : Prop := Value.leb a b = true

instance : DecidableRel vle := fun a b => by
  unfold vle; infer_instance

/-- Python `sorted` over cell values. -/
def sortVals (l : List Value) : List Value :=
  l.insertionSort vle

/-- The values of a column, in row order. -/
def colVals (df : DF) (c : String) : List Value :=
  df.rows.map (fun r => r.get c)

/-- `sorted(df[c].dropna().unique().tolist())`: the sorted distinct
non-missing values of a column (sidebar options; also the ascending index
of `value_counts().sort_index()` and of `groupby(c)`). -/
def optionsOf (df : DF) (c : String) : List Value :=
  sortVals ((colVals df c).filter (fun v => !(v == Value.na))).dedup

/-- The present (non-missing) numeric values of a column. -/
def numVals (df : DF) (c : String) : List ℚ :=
  df.rows.filterMap (fun r =>
    match r.get c with
    | .num q => some q
    | _ => none)

/-- `int(x)` in Python: truncation toward zero. -/
def truncQ (q : ℚ) : ℤ :=
  q.num.tdiv q.den

/-- `np.nanmin` over a column, when some value is present. -/
def nanminCol (df : DF) (c : String) : Option ℚ := (numVals df c).min?

/-- `np.nanmax` over a column, when some value is present. -/
def nanmaxCol (df : DF) (c : String) : Option ℚ := (numVals df c).max?

/-- `Series.isin(sel)`: membership of the cell in the selection list
(pandas matches the missing marker only when the selection contains it;
in the program selections come from `dropna()`-derived options). -/
def Value.isin (v : Value) (sel : List Value) : Bool :=
  sel.contains v

/-- `Series.between(lo, hi)`: inclusive range test, false on a missing or
non-numeric cell. -/
def Value.between (v : Value) (lo hi : ℚ) : Bool :=
  match v with
  | .num q => decide (lo ≤ q) && decide (q ≤ hi)
  | _ => false

/-- The per-row inclusion predicate of lines 95-99 of `app.py`. -/
def rowPasses (genders : List Value) (lo hi : ℚ) (maritals : List Value)
    (r : Row) : Bool :=
  (r.get "gender").isin genders &&
  (r.get "performance_score").between lo hi &&
  (r.get "marital_status").isin maritals

/-- `df_f`: the filtered view (lines 95-99 of `app.py`). -/
def filterDF (df : DF) (genders : List Value) (lo hi : ℚ)
    (maritals : List Value) : DF :=
  { cols := df.cols, rows := df.rows.filter (rowPasses genders lo hi maritals) }

/-- Mean of a list of rationals; the missing marker when the list is empty
(pandas `mean()` of an all-missing column is `NaN`). -/
def qMean (l : List ℚ) : Value :=
  if l = [] then Value.na else Value.num (l.sum / l.length)

/-- `df[c].mean()`: arithmetic mean of the present values of a column. -/
def colMean (df : DF) (c : String) : Value := qMean (numVals df c)

/-- The present values of column `v` among rows whose column `g` holds
key `k`. -/
def groupNumVals (df : DF) (g : String) (k : Value) (v : String) : List ℚ :=
  df.rows.filterMap (fun r =>
    if r.get g = k then
      match r.get v with
      | .num q => some q
      | _ => none
    else none)

/-- `df.groupby(g)[v].mean().sort_index()`: each distinct non-missing key
of `g`, in ascending order, mapped to the mean of the present values of
`v` in its group (lines 140 and 163 of `app.py`). -/
def groupedMean (df : DF) (g v : String) : List (Value × Value) :=
  (optionsOf df g).map (fun k => (k, qMean (groupNumVals df g k v)))

/-- `df[c].value_counts().sort_index()`: occurrence count of each distinct
non-missing value, ascending by key (line 129 of `app.py`). -/
def distByValue (df : DF) (c : String) : List (Value × ℕ) :=
  (optionsOf df c).map (fun k => (k, (colVals df c).count k))

/-- Descending-count order on count pairs. -/
def cntGE (a b : Value × ℕ) : Prop := b.2 ≤ a.2

instance : DecidableRel cntGE := fun a b => by
  unfold cntGE; infer_instance

/-- `df[c].value_counts()`: occurrence count of each distinct non-missing
value, ordered by descending count. -/
def valueCounts (df : DF) (c : String) : List (Value × ℕ) :=
  let nonNA := (colVals df c).filter (fun v => !(v == Value.na))
  (nonNA.dedup.map (fun k => (k, nonNA.count k))).insertionSort cntGE

/-- `df[c].value_counts(normalize=True) * 100` (lines 191-193 of
`app.py`): frequencies as percentages of the non-missing total, ordered by
descending frequency. -/
def valueCountsPct (df : DF) (c : String) : List (Value × ℚ) :=
  let tot := ((colVals df c).filter (fun v => !(v == Value.na))).length
  (valueCounts df c).map (fun p => (p.1, (p.2 : ℚ) * 100 / (tot : ℚ)))

/-- The data rendered on a successful pass: the filtered view, the KPI
metrics, and the chart-ready aggregates (sections 7-10 of `app.py`). -/
structure Rendered where
  view : DF
  nRecords : ℕ
  meanPerf : Value
  meanSat : Value
  meanAbs : Value
  scoreCounts : List (Value × ℕ)
  hoursByGender : List (Value × Value)
  hoursByScore : List (Value × Value)
  perfPct : List (Value × ℚ)
deriving DecidableEq, Repr

/-- Outcome of one render pass. -/
inductive PassResult where
  | loadError (col : String)
  | schemaError (missing : List String)
  | emptyWarning
  | rendered (r : Rendered)
deriving DecidableEq, Repr

/-- One full recompute pass of the app for given filter selections:
load, validate required columns (halting with the missing list), filter,
and either warn-and-stop on an empty view or render metrics and charts
(lines 56-199 of `app.py`). -/
def runPass (df0 : DF) (genders : List Value) (lo hi : ℚ)
    (maritals : List Value) : PassResult :=
  match load df0 with
  | .error c => .loadError c
  | .ok df =>
      if missingCols df ≠ [] then .schemaError (missingCols df)
      else
        let dff := filterDF df genders lo hi maritals
        if dff.rows.length = 0 then .emptyWarning
        else .rendered
          { view := dff
            nRecords := dff.rows.length
            meanPerf := colMean dff "performance_score"
            meanSat := colMean dff "satisfaction_level"
            meanAbs := colMean dff "absences"
            scoreCounts := distByValue dff "performance_score"
            hoursByGender := groupedMean dff "gender" "average_work_hours"
            hoursByScore := groupedMean dff "performance_score" "average_work_hours"
            perfPct := valueCountsPct dff "performance_score_desc" }

/-! ### Concrete example tables (used to instantiate the theorems) -/

/-- Example raw row: a male single employee whose gender is stored as
`"M "` pre-trim, as several rows of the source CSV are. -/
def rowM : Row :=
  [("gender", Value.str "M "), ("marital_status", Value.str "Single"),
   ("department", Value.str "IT"), ("performance_score", Value.num 3),
   ("performance_score_desc", Value.str "Fully Meets"),
   ("salary", Value.num 100), ("average_work_hours", Value.num 40),
   ("age", Value.num 30), ("satisfaction_level", Value.num 4),
   ("absences", Value.num 1)]

/-- Example raw row: a married female employee with score 1. -/
def rowF : Row :=
  [("gender", Value.str "F"), ("marital_status", Value.str "Married"),
   ("department", Value.str "Sales"), ("performance_score", Value.num 1),
   ("performance_score_desc", Value.str "Needs Improvement"),
   ("salary", Value.num 80), ("average_work_hours", Value.num 30),
   ("age", Value.num 25), ("satisfaction_level", Value.num 3),
   ("absences", Value.num 2)]

/-- Column list shared by the example tables. -/
def exCols : List String :=
  ["gender", "marital_status", "department", "performance_score",
   "performance_score_desc", "salary", "average_work_hours", "age",
   "satisfaction_level", "absences"]

/-- Example raw table with the full schema. -/
def dfRaw : DF := ⟨exCols, [rowM, rowF]⟩

/-- The example table after `load_data`. -/
def dfLoaded : DF :=
  match load dfRaw with
  | .ok d => d
  | .error _ => ⟨[], []⟩

/-- A raw table whose only row has a missing `gender` cell. -/
def dfNA : DF := ⟨exCols, [rowM.set "gender" Value.na]⟩

/-- `dfNA` after `load_data`. -/
def dfNALoaded : DF :=
  match load dfNA with
  | .ok d => d
  | .error _ => ⟨[], []⟩

/-- A table whose only row has a missing `performance_score_desc`
(and an already-trimmed gender). -/
def dfDesc : DF :=
  ⟨exCols, [(rowM.set "gender" (Value.str "M")).set
    "performance_score_desc" Value.na]⟩

/-- A raw table lacking the `gender` column. -/
def dfNoGender : DF :=
  ⟨["department", "performance_score", "salary", "average_work_hours",
    "age", "marital_status"], []⟩

/-- A raw table with every loader column but no `marital_status`. -/
def dfNoMarital : DF :=
  ⟨["department", "gender", "performance_score", "salary",
    "average_work_hours", "age"], [rowM]⟩

/-- `dfNoMarital` after `load_data`. -/
def dfNoMaritalLoaded : DF :=
  match load dfNoMarital with
  | .ok d => d
  | .error _ => ⟨[], []⟩

/-- The two-record table of the grouped-mean scenario:
(M, 40 hours) and (F, 30 hours). -/
def dfHours : DF :=
  ⟨["gender", "average_work_hours"],
   [[("gender", Value.str "M"), ("average_work_hours", Value.num 40)],
    [("gender", Value.str "F"), ("average_work_hours", Value.num 30)]]⟩

/-! ### Order lemmas for the sorting relations -/

theorem charListLe_total (a b : List Char) :
    charListLe a b = true ∨ charListLe b a = true := by
  induction a generalizing b with
  | nil => exact Or.inl rfl
  | cons x xs ih =>
    cases b with
    | nil => exact Or.inr rfl
    | cons y ys =>
      by_cases h1 : x.toNat < y.toNat
      · exact Or.inl (by simp [charListLe, h1])
      · by_cases h2 : y.toNat < x.toNat
        · exact Or.inr (by simp [charListLe, h2])
        · rcases ih ys with h | h
          · exact Or.inl (by simp [charListLe, h1, h2, h])
          · exact Or.inr (by simp [charListLe, h1, h2, h])

theorem charListLe_cons {p q : Char} {ps qs : List Char}
    (h : charListLe (p :: ps) (q :: qs) = true) :
    p.toNat < q.toNat ∨ (p.toNat = q.toNat ∧ charListLe ps qs = true) := by
  by_cases h1 : p.toNat < q.toNat
  · exact Or.inl h1
  · by_cases h2 : q.toNat < p.toNat
    · simp [charListLe, h1, h2] at h
    · exact Or.inr ⟨by omega, by simpa [charListLe, h1, h2] using h⟩

theorem charListLe_trans :
    ∀ a b c, charListLe a b = true → charListLe b c = true →
      charListLe a c = true
  | [], _, _, _, _ => rfl
  | _ :: _, [], _, hab, _ => by simp [charListLe] at hab
  | _ :: _, _ :: _, [], _, hbc => by simp [charListLe] at hbc
  | x :: xs, y :: ys, z :: zs, hab, hbc => by
      rcases charListLe_cons hab with h1 | ⟨h1, h1'⟩ <;>
        rcases charListLe_cons hbc with h2 | ⟨h2, h2'⟩ <;>
        simp only [charListLe]
      · have hxz : x.toNat < z.toNat := by omega
        simp [hxz]
      · have hxz : x.toNat < z.toNat := by omega
        simp [hxz]
      · have hxz : x.toNat < z.toNat := by omega
        simp [hxz]
      · have hxz : ¬ x.toNat < z.toNat := by omega
        have hzx : ¬ z.toNat < x.toNat := by omega
        simp only [hxz, if_false, hzx]
        exact charListLe_trans xs ys zs h1' h2'

instance : IsTotal Value vle :=
  ⟨fun a b => by
    cases a <;> cases b <;> simp only [vle, Value.leb] <;>
      first
        | exact Or.inl rfl
        | exact Or.inr rfl
        | simp [le_total]
        | exact charListLe_total _ _⟩

instance : IsTrans Value vle :=
  ⟨fun a b c => by
    cases a <;> cases b <;> cases c <;> simp only [vle, Value.leb] <;>
      intro h1 h2 <;>
      first
        | rfl
        | (simp only [decide_eq_true_eq] at h1 h2 ⊢
           exact le_trans h1 h2)
        | exact charListLe_trans _ _ _ h1 h2
        | simp_all⟩

instance : IsTotal (Value × ℕ) cntGE :=
  ⟨fun a b => (le_total b.2 a.2).imp (fun h => h) (fun h => h)⟩

instance : IsTrans (Value × ℕ) cntGE :=
  ⟨fun _ _ _ h1 h2 => le_trans h2 h1⟩

/-! ### Row and load lemmas -/

theorem Row.get_nil (c : String) : Row.get [] c = Value.na := rfl

theorem Row.get_cons (p : String × Value) (r : Row) (c : String) :
    Row.get (p :: r) c = if p.1 = c then p.2 else Row.get r c := by
  by_cases h : p.1 = c
  · simp [Row.get, List.find?, h]
  · have hb : (p.1 == c) = false := beq_eq_false_iff_ne.mpr h
    simp [Row.get, List.find?, hb, h]

theorem Row.get_set_self (r : Row) (c : String) (v : Value) :
    (r.set c v).get c = v := by
  induction r with
  | nil => simp [Row.set, Row.get_cons]
  | cons p r ih =>
    by_cases h : p.1 = c
    · simp [Row.set, h, Row.get_cons]
    · simp [Row.set, h, Row.get_cons, ih]

theorem Row.get_set_other (r : Row) (c c' : String) (v : Value)
    (h : c' ≠ c) : (r.set c v).get c' = r.get c' := by
  induction r with
  | nil => simp [Row.set, Row.get_cons, Row.get_nil, Ne.symm h]
  | cons p r ih =>
    by_cases hp : p.1 = c
    · subst hp
      simp [Row.set, Row.get_cons, Ne.symm h, h]
    · simp [Row.set, hp, Row.get_cons, ih]

theorem loadRow_get_department (r : Row) :
    (loadRow r).get "department"
      = Value.str (pyStrip (astypeStr (r.get "department"))) := by
  simp [loadRow, numericCols, List.foldl,
    Row.get_set_self, Row.get_set_other]

theorem loadRow_get_gender (r : Row) :
    (loadRow r).get "gender"
      = Value.str (pyStrip (astypeStr (r.get "gender"))) := by
  simp [loadRow, numericCols, List.foldl,
    Row.get_set_self, Row.get_set_other]

theorem loadRow_get_numeric (r : Row) (c : String) (hc : c ∈ numericCols) :
    (loadRow r).get c = toNumeric (r.get c) := by
  fin_cases hc <;>
    simp [loadRow, numericCols, List.foldl,
      Row.get_set_self, Row.get_set_other]

theorem loadRow_get_other (r : Row) (c : String) (hc : c ∉ loaderCols) :
    (loadRow r).get c = r.get c := by
  simp only [loaderCols, List.mem_cons, List.not_mem_nil, or_false,
    not_or] at hc
  obtain ⟨h1, h2, h3, h4, h5, h6⟩ := hc
  simp [loadRow, numericCols, List.foldl,
    Row.get_set_other _ _ _ _ h1, Row.get_set_other _ _ _ _ h2,
    Row.get_set_other _ _ _ _ h3, Row.get_set_other _ _ _ _ h4,
    Row.get_set_other _ _ _ _ h5, Row.get_set_other _ _ _ _ h6]

theorem load_ok_elim {df0 df : DF} (h : load df0 = Except.ok df) :
    df.cols = df0.cols ∧ df.rows = df0.rows.map loadRow ∧
      ∀ c ∈ loaderCols, df0.cols.contains c = true := by
  unfold load at h
  cases hf : loaderCols.find? (fun c => ! df0.cols.contains c) with
  | some c => rw [hf] at h; cases h
  | none =>
    rw [hf] at h
    injection h with h
    subst h
    refine ⟨rfl, rfl, fun c hc => ?_⟩
    have := List.find?_eq_none.mp hf c hc
    simpa using this

theorem load_ok_of_cols {df0 : DF}
    (h : ∀ c ∈ loaderCols, df0.cols.contains c = true) :
    load df0 = Except.ok ⟨df0.cols, df0.rows.map loadRow⟩ := by
  unfold load
  have : loaderCols.find? (fun c => ! df0.cols.contains c) = none :=
    List.find?_eq_none.mpr (fun c hc => by
      have hc' := h c hc
      simp at hc' ⊢
      exact hc')
  rw [this]

/-! ### Membership lemmas for the derived lists -/

theorem mem_sortVals {v : Value} {l : List Value} :
    v ∈ sortVals l ↔ v ∈ l :=
  (List.perm_insertionSort vle l).mem_iff

theorem mem_optionsOf {df : DF} {c : String} {v : Value} :
    v ∈ optionsOf df c ↔ v ∈ colVals df c ∧ v ≠ Value.na := by
  simp [optionsOf, mem_sortVals, List.mem_dedup, List.mem_filter]

theorem mem_filterDF {df : DF} {genders : List Value} {lo hi : ℚ}
    {maritals : List Value} {r : Row} :
    r ∈ (filterDF df genders lo hi maritals).rows ↔
      r ∈ df.rows ∧ rowPasses genders lo hi maritals r = true := by
  simp [filterDF, List.mem_filter]

theorem between_iff {v : Value} {lo hi : ℚ} :
    Value.between v lo hi = true ↔
      ∃ q, v = Value.num q ∧ lo ≤ q ∧ q ≤ hi := by
  cases v <;> simp [Value.between]

theorem isin_iff {v : Value} {sel : List Value} :
    Value.isin v sel = true ↔ v ∈ sel := by
  simp [Value.isin]

theorem rowPasses_iff {genders : List Value} {lo hi : ℚ}
    {maritals : List Value} {r : Row} :
    rowPasses genders lo hi maritals r = true ↔
      (r.get "gender" ∈ genders ∧
       (∃ q, r.get "performance_score" = Value.num q ∧ lo ≤ q ∧ q ≤ hi) ∧
       r.get "marital_status" ∈ maritals) := by
  simp [rowPasses, isin_iff, between_iff, and_assoc]

/-! ### The claims -/

/-- **C1** For every table and filter criteria (whose selections, as in
the app, contain no missing marker), every record of the filtered view
satisfies the three inclusion predicates — gender selected, performance
score within the inclusive range, marital status selected; every record
of the table failing any of the three is absent from the view; and every
record with a missing value in a filtered field is absent from the view
(membership and range tests against a missing value evaluate false). -/
theorem C1_filter_inclusion (df : DF) (genders : List Value) (lo hi : ℚ)
    (maritals : List Value)
    (hg : Value.na ∉ genders) (hm : Value.na ∉ maritals) :
    (∀ r ∈ (filterDF df genders lo hi maritals).rows,
        r.get "gender" ∈ genders ∧
        (∃ q, r.get "performance_score" = Value.num q ∧ lo ≤ q ∧ q ≤ hi) ∧
        r.get "marital_status" ∈ maritals) ∧
    (∀ r ∈ df.rows,
        ¬ (r.get "gender" ∈ genders ∧
           (∃ q, r.get "performance_score" = Value.num q ∧ lo ≤ q ∧ q ≤ hi) ∧
           r.get "marital_status" ∈ maritals) →
        r ∉ (filterDF df genders lo hi maritals).rows) ∧
    (∀ r ∈ df.rows,
        (r.get "gender" = Value.na ∨ r.get "performance_score" = Value.na ∨
         r.get "marital_status" = Value.na) →
        r ∉ (filterDF df genders lo hi maritals).rows) := by
  refine ⟨?_, ?_, ?_⟩
  · intro r hr
    exact rowPasses_iff.mp (mem_filterDF.mp hr).2
  · intro r _ hfail hr
    exact hfail (rowPasses_iff.mp (mem_filterDF.mp hr).2)
  · intro r _ hna hr
    have h := rowPasses_iff.mp (mem_filterDF.mp hr).2
    rcases hna with h1 | h1 | h1
    · exact hg (h1 ▸ h.1)
    · rcases h.2.1 with ⟨q, hq, _⟩
      rw [h1] at hq
      cases hq
    · exact hm (h1 ▸ h.2.2)

/-- Witness for C1 at the loaded example table with criteria
genders = {M}, score range [2,4], marital = {Single}. -/
theorem C1_filter_inclusion_witness :
    (loadRow rowM).get "gender" ∈ [Value.str "M"] ∧
    (∃ q, (loadRow rowM).get "performance_score" = Value.num q ∧
       (2:ℚ) ≤ q ∧ q ≤ 4) ∧
    (loadRow rowM).get "marital_status" ∈ [Value.str "Single"] :=
  (C1_filter_inclusion dfLoaded [Value.str "M"] 2 4 [Value.str "Single"]
      (by decide) (by decide)).1 (loadRow rowM) (by decide)

/-- **C3** For every table and criteria, once load and schema validation
succeed, the render pass ends in the empty-data warning (skipping metrics,
charts, table and export — the `emptyWarning` outcome carries none of
them) exactly when the filtered view has zero records; the pass outcome is
a value, not a failure, so the condition is recoverable. -/
theorem C3_empty_result (df0 df : DF) (genders maritals : List Value)
    (lo hi : ℚ) (hload : load df0 = Except.ok df)
    (hschema : missingCols df = []) :
    (filterDF df genders lo hi maritals).rows = [] ↔
      runPass df0 genders lo hi maritals = PassResult.emptyWarning := by
  unfold runPass
  rw [hload]
  constructor
  · intro h
    simp [hschema, h]
  · intro h
    by_cases hlen : (filterDF df genders lo hi maritals).rows.length = 0
    · exact List.length_eq_zero.mp hlen
    · simp [hschema, hlen] at h

/-- Witness for C3: clearing both multiselects on the example table
yields the warning outcome. -/
theorem C3_empty_result_witness :
    runPass dfRaw [] 0 0 [] = PassResult.emptyWarning :=
  (C3_empty_result dfRaw dfLoaded [] [] 0 0 rfl (by decide)).mp (by decide)

/-- **C4** After a successful load, the missing-column list contains
exactly the required columns absent from the table; when it is non-empty
the pass halts with `schemaError` carrying that list (nothing rendered);
when it is empty the pass continues past validation. -/
theorem C4_schema_validation (df0 df : DF) (genders maritals : List Value)
    (lo hi : ℚ) (hload : load df0 = Except.ok df) :
    (∀ c, c ∈ missingCols df ↔ c ∈ requiredCols ∧ c ∉ df.cols) ∧
    (missingCols df ≠ [] →
      runPass df0 genders lo hi maritals
        = PassResult.schemaError (missingCols df)) ∧
    (missingCols df = [] →
      runPass df0 genders lo hi maritals = PassResult.emptyWarning ∨
      ∃ ren, runPass df0 genders lo hi maritals
        = PassResult.rendered ren) := by
  refine ⟨?_, ?_, ?_⟩
  · intro c
    simp [missingCols, List.mem_filter]
  · intro hne
    unfold runPass
    rw [hload]
    simp [hne]
  · intro heq
    cases hr : runPass df0 genders lo hi maritals with
    | loadError c =>
        unfold runPass at hr
        rw [hload] at hr
        simp only [heq] at hr
        rw [if_neg (by simp)] at hr
        split at hr <;> cases hr
    | schemaError m =>
        unfold runPass at hr
        rw [hload] at hr
        simp only [heq] at hr
        rw [if_neg (by simp)] at hr
        split at hr <;> cases hr
    | emptyWarning => exact Or.inl rfl
    | rendered ren => exact Or.inr ⟨ren, rfl⟩

/-- Witness for C4: a table with every loader column but no
`marital_status` halts with exactly that column reported. -/
theorem C4_schema_validation_witness :
    runPass dfNoMarital [] 0 0 []
      = PassResult.schemaError ["marital_status"] := by
  have h := (C4_schema_validation dfNoMarital dfNoMaritalLoaded [] [] 0 0
    rfl).2.1 (by decide)
  have hmc : missingCols dfNoMaritalLoaded = ["marital_status"] := by decide
  rw [hmc] at h
  exact h

/-- **C5** The loader coerces the four numeric columns so that after load
every cell there is a number or the missing marker; and load never fails
because of cell contents — success depends only on the column list. -/
theorem C5_numeric_coercion (df0 df : DF) (hload : load df0 = Except.ok df) :
    (∀ r ∈ df.rows, ∀ c ∈ numericCols,
        (∃ q, r.get c = Value.num q) ∨ r.get c = Value.na) ∧
    (∀ d : DF, d.cols = df0.cols → ∃ e, load d = Except.ok e) := by
  obtain ⟨hcols, hrows, hpresent⟩ := load_ok_elim hload
  refine ⟨?_, ?_⟩
  · intro r hr c hc
    rw [hrows] at hr
    obtain ⟨r0, _, rfl⟩ := List.mem_map.mp hr
    rw [loadRow_get_numeric r0 c hc]
    cases h : r0.get c with
    | str s =>
      cases hp : parseNum s with
      | none => right; simp [toNumeric, hp]
      | some q => left; exact ⟨q, by simp [toNumeric, hp]⟩
    | num q => left; exact ⟨q, by simp [toNumeric]⟩
    | na => right; simp [toNumeric]
  · intro d hd
    exact ⟨_, load_ok_of_cols (fun c hc => hd ▸ hpresent c hc)⟩

/-- Witness for C5 at the loaded example table's first row. -/
theorem C5_numeric_coercion_witness :
    (∃ q, (loadRow rowM).get "performance_score" = Value.num q) ∨
    (loadRow rowM).get "performance_score" = Value.na :=
  (C5_numeric_coercion dfRaw dfLoaded rfl).1 (loadRow rowM) (by decide)
    "performance_score" (by decide)

/-! ### Whitespace-stripping lemmas -/

theorem dropWhile_append_singleton {α : Type} {p : α → Bool} {a : α}
    (ha : p a = false) :
    ∀ xs : List α, (xs ++ [a]).dropWhile p = xs.dropWhile p ++ [a]
  | [] => by simp [List.dropWhile, ha]
  | x :: xs => by
      cases hx : p x with
      | true =>
          simp only [List.cons_append, List.dropWhile, hx]
          exact dropWhile_append_singleton ha xs
      | false => simp [List.dropWhile, hx]

theorem dropWhile_head_false {α : Type} {p : α → Bool} :
    ∀ (l : List α) {a : α} {as : List α},
      l.dropWhile p = a :: as → p a = false
  | [], _, _, h => by cases h
  | x :: xs, a, as, h => by
      cases hx : p x with
      | true =>
          rw [List.dropWhile_cons_of_pos hx] at h
          exact dropWhile_head_false xs h
      | false =>
          rw [List.dropWhile_cons_of_neg (by simp [hx])] at h
          cases h
          exact hx

theorem stripChars_no_trail (l : List Char) :
    (stripChars l).reverse.dropWhile isWS = (stripChars l).reverse := by
  simp only [stripChars, List.reverse_reverse]
  exact List.dropWhile_idempotent _ _

theorem stripChars_no_lead (l : List Char) :
    (stripChars l).dropWhile isWS = stripChars l := by
  unfold stripChars
  cases h : l.dropWhile isWS with
  | nil => simp
  | cons a as =>
      have ha : isWS a = false := dropWhile_head_false l h
      rw [List.reverse_cons, dropWhile_append_singleton ha,
        List.reverse_append]
      simp [List.dropWhile, ha]

theorem stripChars_idem (l : List Char) :
    stripChars (stripChars l) = stripChars l := by
  conv_lhs => rw [stripChars]
  rw [stripChars_no_lead l, stripChars_no_trail l, List.reverse_reverse]

theorem pyStrip_idem (s : String) : pyStrip (pyStrip s) = pyStrip s :=
  congrArg String.mk (stripChars_idem s.data)

theorem length_dropWhile_le {α : Type} (p : α → Bool) :
    ∀ l : List α, (l.dropWhile p).length ≤ l.length
  | [] => le_refl _
  | x :: xs => by
      cases hx : p x with
      | true =>
          rw [List.dropWhile_cons_of_pos hx]
          exact le_trans (length_dropWhile_le p xs) (by simp)
      | false =>
          rw [List.dropWhile_cons_of_neg (by simp [hx])]

theorem head_not_ws_of_stripped {l : List Char}
    (h : l.dropWhile isWS = l) : ∀ x ∈ l.head?, isWS x = false := by
  intro x hx
  cases l with
  | nil => cases hx
  | cons a as =>
      have hxa : a = x := by simpa using hx
      subst hxa
      cases ha : isWS a with
      | false => rfl
      | true =>
          rw [List.dropWhile_cons_of_pos ha] at h
          have hlen := congrArg List.length h
          have hle := length_dropWhile_le isWS as
          simp at hlen
          omega

/-- Stripped strings: stripping is idempotent, and the result has no
whitespace at either end. -/
theorem stripped_str_spec (t : String) :
    pyStrip (pyStrip t) = pyStrip t ∧
    (∀ x ∈ (pyStrip t).data.head?, isWS x = false) ∧
    (∀ x ∈ (pyStrip t).data.getLast?, isWS x = false) := by
  refine ⟨pyStrip_idem t, ?_, ?_⟩
  · exact head_not_ws_of_stripped (stripChars_no_lead t.data)
  · intro x hx
    have hx' : x ∈ (stripChars t.data).reverse.head? := by
      rw [List.head?_reverse]
      exact hx
    exact head_not_ws_of_stripped (stripChars_no_trail t.data) x hx'

/-- **C6** After load, every `gender` and `department` value is a string
with no leading or trailing whitespace (stripping it again changes
nothing, and its first and last characters are not whitespace); and on
the example table, whose first row stores gender `"M "`, filtering with
genders = {"M"}, score range [2,4], marital = {Single} returns exactly
that trimmed row. -/
theorem C6_trimmed_after_load (df0 df : DF)
    (hload : load df0 = Except.ok df) :
    (∀ r ∈ df.rows,
        (∃ s, r.get "gender" = Value.str s ∧ pyStrip s = s ∧
            (∀ x ∈ s.data.head?, isWS x = false) ∧
            (∀ x ∈ s.data.getLast?, isWS x = false)) ∧
        (∃ s, r.get "department" = Value.str s ∧ pyStrip s = s ∧
            (∀ x ∈ s.data.head?, isWS x = false) ∧
            (∀ x ∈ s.data.getLast?, isWS x = false))) ∧
    (filterDF dfLoaded [Value.str "M"] 2 4 [Value.str "Single"]).rows
      = [loadRow rowM] := by
  obtain ⟨-, hrows, -⟩ := load_ok_elim hload
  refine ⟨?_, by decide⟩
  intro r hr
  rw [hrows] at hr
  obtain ⟨r0, -, rfl⟩ := List.mem_map.mp hr
  constructor
  · exact ⟨pyStrip (astypeStr (r0.get "gender")), loadRow_get_gender r0,
      stripped_str_spec _⟩
  · exact ⟨pyStrip (astypeStr (r0.get "department")),
      loadRow_get_department r0, stripped_str_spec _⟩

/-- Witness for C6: the `"M "` scenario on the example table. -/
theorem C6_trimmed_after_load_witness :
    (filterDF dfLoaded [Value.str "M"] 2 4 [Value.str "Single"]).rows
      = [loadRow rowM] :=
  (C6_trimmed_after_load dfRaw dfLoaded rfl).2

/-- After a successful load, the only required column that can still be
missing is `marital_status` (the loader itself touched all the others). -/
theorem missingCols_of_load {df0 df : DF} (h : load df0 = Except.ok df) :
    missingCols df =
      if df.cols.contains "marital_status" then [] else ["marital_status"] := by
  obtain ⟨hcols, -, hpresent⟩ := load_ok_elim h
  have h1 : "gender" ∈ df.cols := by
    rw [hcols]; simpa using hpresent _ (by decide)
  have h2 : "performance_score" ∈ df.cols := by
    rw [hcols]; simpa using hpresent _ (by decide)
  have h4 : "average_work_hours" ∈ df.cols := by
    rw [hcols]; simpa using hpresent _ (by decide)
  have h5 : "age" ∈ df.cols := by
    rw [hcols]; simpa using hpresent _ (by decide)
  have h6 : "salary" ∈ df.cols := by
    rw [hcols]; simpa using hpresent _ (by decide)
  by_cases h3 : "marital_status" ∈ df.cols <;>
    simp [missingCols, requiredCols, h1, h2, h3, h4, h5, h6]

/-- **C9** The loader reads `department`, `gender`, `performance_score`,
`salary`, `average_work_hours` and `age` itself, so a table lacking any of
them makes the load raise before the required-column validation runs; on
any successfully loaded table the missing-column list can only name
`marital_status`, and the schema-error outcome can only report exactly
`["marital_status"]`. -/
theorem C9_loader_access_precedes_validation (df0 : DF) :
    (∀ c ∈ loaderCols, df0.cols.contains c = false →
        ∃ e, load df0 = Except.error e) ∧
    (∀ df, load df0 = Except.ok df →
        ∀ c ∈ missingCols df, c = "marital_status") ∧
    (∀ genders : List Value, ∀ lo hi : ℚ, ∀ maritals : List Value,
        ∀ m, runPass df0 genders lo hi maritals = PassResult.schemaError m →
        m = ["marital_status"]) := by
  refine ⟨?_, ?_, ?_⟩
  · intro c hc hfalse
    cases hf : loaderCols.find? (fun c => ! df0.cols.contains c) with
    | none =>
        have := List.find?_eq_none.mp hf c hc
        rw [hfalse] at this
        simp at this
    | some e =>
        refine ⟨e, ?_⟩
        unfold load
        rw [hf]
  · intro df hload c hcmem
    rw [missingCols_of_load hload] at hcmem
    cases h3 : df.cols.contains "marital_status" <;>
      rw [h3] at hcmem <;> simp at hcmem
    exact hcmem
  · intro genders lo hi maritals m hrun
    unfold runPass at hrun
    cases hf : load df0 with
    | error e =>
        rw [hf] at hrun
        cases hrun
    | ok df =>
        rw [hf] at hrun
        simp only [missingCols_of_load hf] at hrun
        by_cases h3 : df.cols.contains "marital_status" = true
        · rw [if_pos h3] at hrun
          simp at hrun
          split at hrun <;> cases hrun
        · rw [if_neg h3] at hrun
          simp at hrun
          exact hrun.symm

/-- Witness for C9: a table without a `gender` column makes the load
itself fail. -/
theorem C9_loader_access_precedes_validation_witness :
    ∃ e, load dfNoGender = Except.error e :=
  (C9_loader_access_precedes_validation dfNoGender).1 "gender"
    (by decide) (by decide)

/-- **C10** After load, `gender` and `department` contain no missing
value at all: the string cast turns a missing input into the literal
string `"nan"`; consequently, on a table whose only row had a missing
gender, `"nan"` is a selectable gender option and selecting it includes
that row in the filtered view rather than excluding it. -/
theorem C10_missing_gender_becomes_nan (df0 df : DF)
    (hload : load df0 = Except.ok df) :
    (∀ r ∈ df.rows,
        r.get "gender" ≠ Value.na ∧ r.get "department" ≠ Value.na) ∧
    (∀ r0 ∈ df0.rows, r0.get "gender" = Value.na →
        (loadRow r0).get "gender" = Value.str "nan") ∧
    (Value.str "nan" ∈ optionsOf dfNALoaded "gender" ∧
      (filterDF dfNALoaded [Value.str "nan"] 2 4 [Value.str "Single"]).rows
        = dfNALoaded.rows) := by
  obtain ⟨-, hrows, -⟩ := load_ok_elim hload
  refine ⟨?_, ?_, by decide, by decide⟩
  · intro r hr
    rw [hrows] at hr
    obtain ⟨r0, -, rfl⟩ := List.mem_map.mp hr
    rw [loadRow_get_gender r0, loadRow_get_department r0]
    exact ⟨by simp, by simp⟩
  · intro r0 _ hna
    rw [loadRow_get_gender r0, hna]
    rfl

/-- Witness for C10: the table whose row has a missing gender. -/
theorem C10_missing_gender_becomes_nan_witness :
    (loadRow (rowM.set "gender" Value.na)).get "gender" = Value.str "nan" :=
  (C10_missing_gender_becomes_nan dfNA dfNALoaded rfl).2.1
    (rowM.set "gender" Value.na) (by decide) (by decide)

/-- A loaded row's numeric columns hold a number or the missing marker. -/
theorem loadRow_numeric_shape (r0 : Row) (c : String) (hc : c ∈ numericCols) :
    (∃ q, (loadRow r0).get c = Value.num q) ∨
      (loadRow r0).get c = Value.na := by
  rw [loadRow_get_numeric r0 c hc]
  cases h : r0.get c with
  | str s =>
    cases hp : parseNum s with
    | none => right; simp [toNumeric, hp]
    | some q => left; exact ⟨q, by simp [toNumeric, hp]⟩
  | num q => left; exact ⟨q, by simp [toNumeric]⟩
  | na => right; simp [toNumeric]

/-- **C2** On a loaded table, filtering with the score range set to the
truncated global minimum and maximum of `performance_score` (provided, as
the spec requires, these bounds bracket every present score) and with all
gender and marital-status options selected returns exactly the table
minus the rows with a missing value in a filtered column. -/
theorem C2_full_range_filter (df0 df : DF) (m M : ℚ)
    (hload : load df0 = Except.ok df)
    (_hmin : nanminCol df "performance_score" = some m)
    (_hmax : nanmaxCol df "performance_score" = some M)
    (hbracket : ∀ q ∈ numVals df "performance_score",
        ((truncQ m : ℤ) : ℚ) ≤ q ∧ q ≤ ((truncQ M : ℤ) : ℚ)) :
    filterDF df (optionsOf df "gender") ((truncQ m : ℤ) : ℚ)
        ((truncQ M : ℤ) : ℚ) (optionsOf df "marital_status")
      = ⟨df.cols, df.rows.filter (fun r =>
          !(r.get "gender" == Value.na) &&
          !(r.get "performance_score" == Value.na) &&
          !(r.get "marital_status" == Value.na))⟩ := by
  obtain ⟨hcols, hrows, -⟩ := load_ok_elim hload
  simp only [filterDF, DF.mk.injEq]
  refine ⟨trivial, List.filter_congr ?_⟩
  intro r hr
  have hr2 : r ∈ df0.rows.map loadRow := hrows ▸ hr
  obtain ⟨r0, hr0, rfl⟩ := List.mem_map.mp hr2
  unfold rowPasses
  -- gender conjunct: always a non-missing string, always selected
  obtain ⟨s, hs⟩ : ∃ s, (loadRow r0).get "gender" = Value.str s :=
    ⟨_, loadRow_get_gender r0⟩
  have hgmem : (loadRow r0).get "gender" ∈ colVals df "gender" :=
    List.mem_map.mpr ⟨_, hr, rfl⟩
  have hgopt : (loadRow r0).get "gender" ∈ optionsOf df "gender" :=
    mem_optionsOf.mpr ⟨hgmem, by rw [hs]; simp⟩
  have hgb : Value.isin ((loadRow r0).get "gender")
      (optionsOf df "gender") = true := isin_iff.mpr hgopt
  rw [hgb, hs]
  -- marital conjunct: selected iff non-missing
  have hmb : Value.isin ((loadRow r0).get "marital_status")
      (optionsOf df "marital_status")
      = !((loadRow r0).get "marital_status" == Value.na) := by
    cases hmv : (loadRow r0).get "marital_status" == Value.na with
    | true =>
        have hna : (loadRow r0).get "marital_status" = Value.na := by
          simpa using hmv
        have hnmem : Value.na ∉ optionsOf df "marital_status" :=
          fun hin => (mem_optionsOf.mp hin).2 rfl
        rw [hna]
        simpa [Value.isin] using hnmem
    | false =>
        have hne : (loadRow r0).get "marital_status" ≠ Value.na := by
          simpa using hmv
        have hmmem : (loadRow r0).get "marital_status"
            ∈ colVals df "marital_status" := List.mem_map.mpr ⟨_, hr, rfl⟩
        simp [isin_iff, mem_optionsOf.mpr ⟨hmmem, hne⟩]
  rw [hmb]
  -- score conjunct: within the bracketing bounds iff non-missing
  rcases loadRow_numeric_shape r0 "performance_score" (by decide) with
    ⟨q, hq⟩ | hq
  · have hqmem : q ∈ numVals df "performance_score" := by
      simp only [numVals]
      rw [hrows]
      exact List.mem_filterMap.mpr ⟨loadRow r0,
        List.mem_map.mpr ⟨r0, hr0, rfl⟩, by rw [hq]⟩
    have hb := hbracket q hqmem
    rw [hq]
    simp [Value.between, hb.1, hb.2]
  · rw [hq]
    simp [Value.between]

/-- Witness for C2 on the loaded example table (scores 3 and 1, so the
truncated bounds are 1 and 3 and bracket every score). -/
theorem C2_full_range_filter_witness :
    filterDF dfLoaded (optionsOf dfLoaded "gender") ((truncQ 1 : ℤ) : ℚ)
        ((truncQ 3 : ℤ) : ℚ) (optionsOf dfLoaded "marital_status")
      = ⟨dfLoaded.cols, dfLoaded.rows.filter (fun r =>
          !(r.get "gender" == Value.na) &&
          !(r.get "performance_score" == Value.na) &&
          !(r.get "marital_status" == Value.na))⟩ :=
  C2_full_range_filter dfRaw dfLoaded 1 3 rfl (by decide) (by decide)
    (by decide)

/-- The keys of `groupedMean` are the sorted distinct non-missing values
of the grouping column. -/
theorem groupedMean_keys (df : DF) (g v : String) :
    (groupedMean df g v).map Prod.fst = optionsOf df g := by
  simp [groupedMean, List.map_map, Function.comp_def]

/-- **C7** `groupedMean` maps each distinct non-missing value of the
grouping column — and nothing else — to the arithmetic mean of the
present values of the value column within its group, with entries ordered
by ascending key and no duplicate keys; in particular, on the two records
(M, 40) and (F, 30) it returns F ↦ 30, M ↦ 40 in that order. -/
theorem C7_grouped_mean (df : DF) (g v : String) :
    ((groupedMean df g v).map Prod.fst).Sorted vle ∧
    ((groupedMean df g v).map Prod.fst).Nodup ∧
    (∀ k mv, (k, mv) ∈ groupedMean df g v ↔
        (k ≠ Value.na ∧ k ∈ colVals df g ∧
          mv = qMean (groupNumVals df g k v))) ∧
    groupedMean dfHours "gender" "average_work_hours"
      = [(Value.str "F", Value.num 30), (Value.str "M", Value.num 40)] := by
  refine ⟨?_, ?_, ?_, ?_⟩
  · rw [groupedMean_keys]
    exact List.sorted_insertionSort vle _
  · rw [groupedMean_keys]
    exact ((List.perm_insertionSort vle _).nodup_iff).mpr
      (List.nodup_dedup _)
  · intro k mv
    constructor
    · intro hmem
      obtain ⟨k', hk', heq⟩ := List.mem_map.mp hmem
      injection heq with h1 h2
      subst h1
      subst h2
      obtain ⟨hcol, hne⟩ := mem_optionsOf.mp hk'
      exact ⟨hne, hcol, rfl⟩
    · rintro ⟨hne, hcol, rfl⟩
      exact List.mem_map.mpr ⟨k, mem_optionsOf.mpr ⟨hcol, hne⟩, rfl⟩
  · simp [groupedMean, optionsOf, colVals, sortVals, groupNumVals, qMean,
      dfHours, Row.get, List.insertionSort, List.orderedInsert, vle,
      Value.leb, charListLe, List.filter, List.dedup]

/-! ### Counting lemmas for `valueCounts` -/

theorem sum_map_add {α : Type} (l : List α) (f g : α → ℕ) :
    (l.map (fun x => f x + g x)).sum = (l.map f).sum + (l.map g).sum := by
  induction l with
  | nil => simp
  | cons x xs ih =>
      simp only [List.map_cons, List.sum_cons, ih]
      omega

theorem sum_indicator_eq_one {α : Type} [DecidableEq α] :
    ∀ (keys : List α) (x : α), keys.Nodup → x ∈ keys →
      (keys.map (fun k => if x = k then (1:ℕ) else 0)).sum = 1
  | [], x, _, hx => by cases hx
  | k :: keys, x, hnd, hx => by
      rcases List.mem_cons.mp hx with rfl | hx'
      · simp only [List.map_cons, List.sum_cons, if_pos rfl]
        have hnot : x ∉ keys := (List.nodup_cons.mp hnd).1
        have hz : (keys.map (fun k => if x = k then (1:ℕ) else 0)).sum
            = 0 := by
          rw [List.sum_eq_zero]
          intro n hn
          obtain ⟨k', hk', rfl⟩ := List.mem_map.mp hn
          have hne : x ≠ k' := fun h => hnot (by rw [h]; exact hk')
          simp [hne]
        rw [hz]
        simp
      · have hne : x ≠ k := fun h =>
          (List.nodup_cons.mp hnd).1 (by rw [← h]; exact hx')
        simp only [List.map_cons, List.sum_cons, if_neg hne]
        rw [sum_indicator_eq_one keys x (List.nodup_cons.mp hnd).2 hx']

theorem sum_count_eq_length {α : Type} [DecidableEq α]
    (keys : List α) (hnd : keys.Nodup) :
    ∀ l : List α, (∀ a ∈ l, a ∈ keys) →
      (keys.map (fun k => l.count k)).sum = l.length
  | [], _ => by simp
  | x :: xs, hsub => by
      have hx : x ∈ keys := hsub x (List.mem_cons_self x xs)
      have hsub' : ∀ a ∈ xs, a ∈ keys := fun a ha =>
        hsub a (List.mem_cons_of_mem _ ha)
      simp only [List.count_cons, beq_iff_eq]
      rw [sum_map_add, sum_count_eq_length keys hnd xs hsub',
        sum_indicator_eq_one keys x hnd hx]
      simp

/-- The counts in `valueCounts` sum to the number of non-missing cells. -/
theorem valueCounts_sum (df : DF) (c : String) :
    ((valueCounts df c).map Prod.snd).sum
      = ((colVals df c).filter (fun v => !(v == Value.na))).length := by
  unfold valueCounts
  have hperm := List.perm_insertionSort cntGE
    ((((colVals df c).filter (fun v => !(v == Value.na))).dedup).map
      (fun k => (k, ((colVals df c).filter
        (fun v => !(v == Value.na))).count k)))
  rw [((hperm.map Prod.snd).sum_eq), List.map_map]
  exact sum_count_eq_length _ (List.nodup_dedup _) _
    (fun a ha => List.mem_dedup.mpr ha)

theorem sum_pct (t : ℚ) : ∀ L : List (Value × ℕ),
    (L.map (fun p => (p.2 : ℚ) * 100 / t)).sum
      = (((L.map Prod.snd).sum : ℕ) : ℚ) * 100 / t
  | [] => by simp
  | p :: L => by
      simp only [List.map_cons, List.sum_cons, sum_pct t L]
      push_cast
      ring

theorem pct_mono {t : ℚ} (ht : 0 ≤ t) {a b : ℕ} (hab : b ≤ a) :
    (b : ℚ) * 100 / t ≤ (a : ℚ) * 100 / t := by
  rcases eq_or_lt_of_le ht with h0 | h0
  · rw [← h0]
    simp
  · have hcast : (b : ℚ) ≤ (a : ℚ) := by exact_mod_cast hab
    have hmul : (b : ℚ) * 100 ≤ (a : ℚ) * 100 :=
      mul_le_mul_of_nonneg_right hcast (by norm_num)
    exact (div_le_div_iff_of_pos_right h0).mpr hmul

theorem map_snd_map_pair {γ : Type} (L : List (Value × ℕ))
    (g : Value × ℕ → γ) :
    ((L.map (fun p => (p.1, g p))).map Prod.snd) = L.map g := by
  rw [List.map_map]
  rfl

/-- **C8 as stated is false**: a non-empty filtered view whose
`performance_score_desc` cells are all missing yields an empty percentage
mapping, so the frequencies sum to 0, not 100, and there is no first
entry. -/
theorem C8_value_counts_pct_cex :
    (filterDF dfDesc [Value.str "M"] 2 4 [Value.str "Single"]).rows ≠ [] ∧
    ((valueCountsPct
        (filterDF dfDesc [Value.str "M"] 2 4 [Value.str "Single"])
        "performance_score_desc").map Prod.snd).sum ≠ 100 := by
  decide

/-- **C8 (amended)** For every view in which the column has at least one
non-missing value, `valueCounts` in percentage mode maps each distinct
non-missing value of the column — and nothing else — to a frequency; the
frequencies sum to 100, entries are ordered by descending frequency, and
the first entry is a most-frequent category. -/
theorem C8_value_counts_pct (df : DF) (c : String)
    (h : ∃ v ∈ colVals df c, v ≠ Value.na) :
    ((valueCountsPct df c).map Prod.snd).sum = 100 ∧
    (valueCountsPct df c).Sorted (fun p q1 => q1.2 ≤ p.2) ∧
    (∀ p ∈ valueCountsPct df c, ∀ q0,
        (valueCountsPct df c).head? = some q0 → p.2 ≤ q0.2) ∧
    (∀ w : Value, (∃ p ∈ valueCountsPct df c, p.1 = w) ↔
        (w ∈ colVals df c ∧ w ≠ Value.na)) := by
  obtain ⟨v0, hv0, hv0ne⟩ := h
  have hv0f : v0 ∈ (colVals df c).filter (fun v => !(v == Value.na)) :=
    List.mem_filter.mpr ⟨hv0, by simp [hv0ne]⟩
  have htot : 0 <
      ((colVals df c).filter (fun v => !(v == Value.na))).length :=
    List.length_pos.mpr (List.ne_nil_of_mem hv0f)
  have htot0 :
      ((((colVals df c).filter (fun v => !(v == Value.na))).length : ℕ)
        : ℚ) ≠ 0 :=
    Nat.cast_ne_zero.mpr (Nat.pos_iff_ne_zero.mp htot)
  have hsorted : (valueCountsPct df c).Sorted (fun p q1 => q1.2 ≤ p.2) := by
    simp only [valueCountsPct, List.Sorted]
    apply List.pairwise_map.mpr
    exact (List.sorted_insertionSort cntGE _).imp
      (fun hab => pct_mono (Nat.cast_nonneg _) hab)
  refine ⟨?_, hsorted, ?_, ?_⟩
  · simp only [valueCountsPct]
    rw [map_snd_map_pair, sum_pct, valueCounts_sum]
    rw [mul_comm, mul_div_assoc, div_self htot0, mul_one]
  · intro p hp q0 hq0
    cases hL : valueCountsPct df c with
    | nil =>
        rw [hL] at hq0
        cases hq0
    | cons a t =>
        rw [hL] at hq0 hp
        injection hq0 with hq0'
        subst hq0'
        rcases List.mem_cons.mp hp with rfl | hp'
        · exact le_refl _
        · have hs := hsorted
          rw [hL] at hs
          exact List.rel_of_pairwise_cons hs hp'
  · intro w
    constructor
    · rintro ⟨p, hp, rfl⟩
      simp only [valueCountsPct] at hp
      obtain ⟨p0, hp0, rfl⟩ := List.mem_map.mp hp
      simp only [valueCounts] at hp0
      have hp1 := (List.perm_insertionSort cntGE _).mem_iff.mp hp0
      obtain ⟨k, hk, rfl⟩ := List.mem_map.mp hp1
      have hkf := List.mem_filter.mp (List.mem_dedup.mp hk)
      exact ⟨hkf.1, by simpa using hkf.2⟩
    · rintro ⟨hw, hwne⟩
      have hwd : w ∈
          ((colVals df c).filter (fun v => !(v == Value.na))).dedup :=
        List.mem_dedup.mpr (List.mem_filter.mpr ⟨hw, by simp [hwne]⟩)
      have hmem2 : (w, ((colVals df c).filter
          (fun v => !(v == Value.na))).count w) ∈ valueCounts df c := by
        simp only [valueCounts]
        exact (List.perm_insertionSort cntGE _).mem_iff.mpr
          (List.mem_map.mpr ⟨w, hwd, rfl⟩)
      refine ⟨(w, ((((colVals df c).filter
          (fun v => !(v == Value.na))).count w : ℕ) : ℚ) * 100 /
          ((((colVals df c).filter
            (fun v => !(v == Value.na))).length : ℕ) : ℚ)), ?_, rfl⟩
      simp only [valueCountsPct]
      exact List.mem_map.mpr ⟨_, hmem2, rfl⟩

/-- Witness for the amended C8 on the loaded example table (two
categories, 50% each). -/
theorem C8_value_counts_pct_witness :
    ((valueCountsPct dfLoaded "performance_score_desc").map
      Prod.snd).sum = 100 :=
  (C8_value_counts_pct dfLoaded "performance_score_desc"
    ⟨Value.str "Fully Meets", by decide, by decide⟩).1
